import Mathlib

/-!
Verification of the `MinimizatorsCollection` orchestration layer
(`fibrosisoptimization/minimizators/minimizators_collection.py`).

Shallow embedding choices:
* Numeric values (densities and measured values) are modelled by `ℚ`.
* A `Minimizator` (external collaborator, class body not in this excerpt)
  carries its immutable `segment` and `value_name` fields and an abstract
  deterministic update law `update : ℚ → ℚ → ℚ`.
* Python runtime faults are modelled by `Except Err`: the unbound-local
  fault of an unrecognised channel tag is `Err.unboundValue`, an index
  outside an array is `Err.indexOutOfRange`.
* The diagnostic print statements are pure observability side effects and
  are not modelled (the spec excludes them from the functional contract).
* The in-place mutation semantics of `update` (the `densities.copy()`
  line) is modelled twice: a pure fold `updateLoop`, and a heap-explicit
  version `updateS` over a `Store` of arrays, used to state that the
  caller's array is never written.
-/

/-- Runtime faults of the Python code: an unrecognised channel leaves the
local variable `values` unbound (`UnboundLocalError`); indexing an array
out of range raises `IndexError`. -/
inductive Err where
  | unboundValue
  | indexOutOfRange
deriving DecidableEq

/-- A minimization unit (class `Minimizator`, external collaborator): its
`segment` (1-indexed) and `value_name` channel tag, plus its single-step
update law taking the current density and the measured value. -/
structure Minimizator where
  segment : Nat
  value_name : String
  update : ℚ → ℚ → ℚ

/-- The surface-data snapshot: two per-segment measurement arrays,
0-indexed by `segment - 1`. -/
structure SurfaceData where
  ptp_mean_per_segment : List ℚ
  lat_mean_per_segment : List ℚ

/-- The channel-selection step of `update_minimizator` (lines 100-104):
`values` starts unbound (`none`); the first `if` binds the PtP array
unnegated, the second binds the element-wise negated LAT array. -/
def selectValues (m : Minimizator) (sd : SurfaceData) : Option (List ℚ) :=
  let values0 : Option (List ℚ) := none
  let values1 := if m.value_name = "PtP" then some sd.ptp_mean_per_segment else values0
  if m.value_name = "LAT" then some (sd.lat_mean_per_segment.map (fun x => -x)) else values1

/-- `MinimizatorsCollection.update_minimizator` (lines 84-116): select the
measurement array by channel tag, index it and the density vector at
`segment - 1`, call the unit's update, and return `(density, density_new)`.
An unbound `values` propagates as `Err.unboundValue`; an out-of-range
index as `Err.indexOutOfRange`. -/
def update_minimizator (m : Minimizator) (densities : List ℚ) (sd : SurfaceData) :
    Except Err (ℚ × ℚ) :=
  match selectValues m sd with
  | none => .error .unboundValue
  | some values =>
      match values[m.segment - 1]?, densities[m.segment - 1]? with
      | some value, some density => .ok (density, m.update density value)
      | _, _ => .error .indexOutOfRange

/-- The loop body of `MinimizatorsCollection.update` (lines 136-141): for
each unit in construction order, run `update_minimizator` against the
current (evolving) density vector, then write `density_new` at
`segment - 1`. -/
def updateLoop (ms : List Minimizator) (densities : List ℚ) (sd : SurfaceData) :
    Except Err (List ℚ) :=
  match ms with
  | [] => .ok densities
  | m :: rest =>
      match update_minimizator m densities sd with
      | .error e => .error e
      | .ok p => updateLoop rest (densities.set (m.segment - 1) p.2) sd

/-- The `MinimizatorsCollection` object: the stored tolerance and the
ordered list of owned units. -/
structure MinimizatorsCollection where
  density_step_tol : ℚ
  minimizators : List Minimizator

/-- `MinimizatorsCollection.update` (lines 118-142), functional view: the
`densities.copy()` line makes all writes local, so the method is the pure
fold `updateLoop` over the owned units. -/
def MinimizatorsCollection.update (c : MinimizatorsCollection) (densities : List ℚ)
    (sd : SurfaceData) : Except Err (List ℚ) :=
  updateLoop c.minimizators densities sd

/-- Property `segments` (lines 42-51): the segment field of each owned
unit, in order, recomputed from `minimizators` at every access. -/
def MinimizatorsCollection.segments (c : MinimizatorsCollection) : List Nat :=
  c.minimizators.map Minimizator.segment

/-- Property `value_names` (lines 53-62): the value_name field of each
owned unit, in order, recomputed from `minimizators` at every access. -/
def MinimizatorsCollection.value_names (c : MinimizatorsCollection) : List String :=
  c.minimizators.map Minimizator.value_name

/-- Modelled from the spec: the constructor of class `Minimizator` (its
module is not in this excerpt). Per the spec a unit is "constructed from
`(segment_index, channel_tag)`" with read-only `segment` and `value_name`
and an unspecified internal update law; the law is abstracted as a
parameter `law` mapping the construction arguments to the unit's update
function. -/
def mkMinimizator (law : Nat → String → ℚ → ℚ → ℚ) (segment : Nat)
    (value_name : String) : Minimizator :=
  ⟨segment, value_name, law segment value_name⟩

/-- `MinimizatorsCollection.make_minimizators` (lines 64-82): one unit per
`zip`-pair of segment and channel tag, in input order (truncating to the
shorter list, as `zip` does). -/
def make_minimizators (law : Nat → String → ℚ → ℚ → ℚ) (segments : List Nat)
    (value_names : List String) : List Minimizator :=
  (segments.zip value_names).map (fun p => mkMinimizator law p.1 p.2)

/-- `MinimizatorsCollection.__init__` (lines 27-40): store the tolerance
and build the units with `make_minimizators`. -/
def mkCollection (law : Nat → String → ℚ → ℚ → ℚ) (segments : List Nat)
    (value_names : List String) (density_step_tol : ℚ) : MinimizatorsCollection :=
  ⟨density_step_tol, make_minimizators law segments value_names⟩

/-- A heap of arrays, for stating the non-mutation guarantee: Python
variables hold references into this store. -/
structure Store where
  arrays : List (List ℚ)

/-- Read the array a reference points to. -/
def Store.readArr (st : Store) (r : Nat) : List ℚ :=
  st.arrays.getD r []

/-- Overwrite the array a reference points to. -/
def Store.writeArr (st : Store) (r : Nat) (a : List ℚ) : Store :=
  ⟨st.arrays.set r a⟩

/-- Allocate a fresh array (`densities.copy()`) and return its reference. -/
def Store.alloc (st : Store) (a : List ℚ) : Store × Nat :=
  (⟨st.arrays ++ [a]⟩, st.arrays.length)

/-- Heap-explicit loop of `MinimizatorsCollection.update`: each iteration
reads the copy through its reference `cref`, runs `update_minimizator`,
and writes `density_new` back at `segment - 1` of that same array. On a
fault the store produced so far survives (the exception propagates). -/
def updateLoopS (ms : List Minimizator) (st : Store) (cref : Nat) (sd : SurfaceData) :
    Store × Except Err Unit :=
  match ms with
  | [] => (st, .ok ())
  | m :: rest =>
      match update_minimizator m (st.readArr cref) sd with
      | .error e => (st, .error e)
      | .ok p =>
          updateLoopS rest
            (st.writeArr cref ((st.readArr cref).set (m.segment - 1) p.2)) cref sd

/-- `MinimizatorsCollection.update` (lines 118-142), heap-explicit view:
line 134 rebinds the local `densities` to a fresh copy of the caller's
array; the loop then mutates only that copy; the reference to the copy is
returned. -/
def MinimizatorsCollection.updateS (c : MinimizatorsCollection) (st : Store) (dref : Nat)
    (sd : SurfaceData) : Store × Except Err Nat :=
  let stc := st.alloc (st.readArr dref)
  match updateLoopS c.minimizators stc.1 stc.2 sd with
  | (st2, .ok _) => (st2, .ok stc.2)
  | (st2, .error e) => (st2, .error e)

/-- Decidable equality for `Except`, so that concrete runs of the embedded
operations can be checked by `decide`. -/
instance {e a : Type} [DecidableEq e] [DecidableEq a] : DecidableEq (Except e a) := fun x y =>
  match x, y with
  | .ok u, .ok v => if h : u = v then .isTrue (by rw [h]) else .isFalse (by simp [h])
  | .error u, .error v => if h : u = v then .isTrue (by rw [h]) else .isFalse (by simp [h])
  | .ok _, .error _ => .isFalse (by simp)
  | .error _, .ok _ => .isFalse (by simp)

/-- A concrete unit update law for exercising the construction: a LAT
unit adopts the measured value, anything else keeps its density. -/
def lawW : Nat → String → ℚ → ℚ → ℚ :=
  fun _ n => if n = "LAT" then fun _ v => v else fun d _ => d

/-- Concrete PtP unit on segment 1. -/
def uP : Minimizator := ⟨1, "PtP", fun _ v => v⟩

/-- Concrete LAT unit on segment 2. -/
def uL : Minimizator := ⟨2, "LAT", fun _ v => v⟩

/-- Concrete second PtP unit also on segment 1 (shares `uP`'s segment). -/
def uP2 : Minimizator := ⟨1, "PtP", fun d _ => d⟩

/-- Concrete unit whose channel tag is in neither known set. -/
def uX : Minimizator := ⟨1, "Amp", fun d _ => d⟩

/-- Concrete snapshot with two measured segments. -/
def sdW : SurfaceData := ⟨[12, 34], [56, 78]⟩

/-- Concrete density vector over three segments (segment 3 unmanaged). -/
def DW : List ℚ := [3, 5, 9]

/-- Concrete collection: one PtP unit on segment 1, one LAT unit on
segment 2. -/
def cW : MinimizatorsCollection := ⟨0, [uP, uL]⟩

/-- Concrete collection with two units sharing segment 1. -/
def cW2 : MinimizatorsCollection := ⟨0, [uP, uP2]⟩

/-- Concrete collection with a shared segment followed by a unit on a
different segment. -/
def cW3 : MinimizatorsCollection := ⟨0, [uP, uP2, uL]⟩

/-- Same observable units as `cW` through syntactically different
closures. -/
def cWalt : MinimizatorsCollection :=
  ⟨1, [⟨1, "PtP", fun _ v => id v⟩, ⟨2, "LAT", fun _ v => id v⟩]⟩

/-- Concrete collection whose only unit points past the end of the
one-element arrays below. -/
def cBad : MinimizatorsCollection := ⟨0, [⟨2, "PtP", fun d _ => d⟩]⟩

/-- Concrete snapshot with a single measured segment. -/
def sdBad : SurfaceData := ⟨[7], [9]⟩

/-- Concrete two-array store; reference 0 is the caller's vector. -/
def stW : Store := ⟨[DW, [4]]⟩

/-- When `value_name` is the PtP tag, the bound array is the snapshot's
`ptp_mean_per_segment`, unnegated. -/
theorem selectValues_ptp (m : Minimizator) (sd : SurfaceData) (h : m.value_name = "PtP") :
    selectValues m sd = some sd.ptp_mean_per_segment := by
  simp [selectValues, h]

/-- When `value_name` is the LAT tag, the bound array is the element-wise
negation of the snapshot's `lat_mean_per_segment`. -/
theorem selectValues_lat (m : Minimizator) (sd : SurfaceData) (h : m.value_name = "LAT") :
    selectValues m sd = some (sd.lat_mean_per_segment.map (fun x => -x)) := by
  simp [selectValues, h]

/-- When `value_name` is neither tag, no array is bound. -/
theorem selectValues_none (m : Minimizator) (sd : SurfaceData)
    (h1 : m.value_name ≠ "PtP") (h2 : m.value_name ≠ "LAT") :
    selectValues m sd = none := by
  simp [selectValues, h1, h2]

/-- Shape of a successful per-unit update: both indexed reads happen at
`segment - 1` of the bound array and of the density vector, and the result
pairs the old density with the unit's update of it by the read value. -/
theorem update_minimizator_eq (m : Minimizator) (D : List ℚ) (sd : SurfaceData)
    (values : List ℚ) (hs : selectValues m sd = some values)
    (hv : m.segment - 1 < values.length) (hd : m.segment - 1 < D.length) :
    update_minimizator m D sd =
      .ok (D.get ⟨m.segment - 1, hd⟩,
           m.update (D.get ⟨m.segment - 1, hd⟩) (values.get ⟨m.segment - 1, hv⟩)) := by
  simp only [update_minimizator, hs]
  rw [List.getElem?_eq_getElem hv, List.getElem?_eq_getElem hd]
  simp [List.get_eq_getElem]

/-- Inversion of a successful per-unit update: it pins down the bound
array, the in-range reads at `segment - 1`, and the returned pair. -/
theorem update_minimizator_ok (m : Minimizator) (D : List ℚ) (sd : SurfaceData)
    (d dn : ℚ) (h : update_minimizator m D sd = Except.ok (d, dn)) :
    ∃ values, selectValues m sd = some values ∧
      ∃ (hv : m.segment - 1 < values.length) (hd : m.segment - 1 < D.length),
        d = D.get ⟨m.segment - 1, hd⟩ ∧
        dn = m.update d (values.get ⟨m.segment - 1, hv⟩) := by
  cases hs : selectValues m sd with
  | none =>
      simp only [update_minimizator, hs] at h
      exact absurd h (by simp)
  | some values =>
      simp only [update_minimizator, hs] at h
      cases hvv : values[m.segment - 1]? with
      | none => rw [hvv] at h; simp at h
      | some value =>
          cases hdd : D[m.segment - 1]? with
          | none => rw [hvv, hdd] at h; simp at h
          | some density =>
              rw [hvv, hdd] at h
              have hv := (List.getElem?_eq_some.mp hvv).1
              have hd := (List.getElem?_eq_some.mp hdd).1
              have hval := (List.getElem?_eq_some.mp hvv).2
              have hden := (List.getElem?_eq_some.mp hdd).2
              simp only [Except.ok.injEq, Prod.mk.injEq] at h
              refine ⟨values, rfl, hv, hd, ?_, ?_⟩
              · simp [List.get_eq_getElem, hden, ← h.1]
              · simp [List.get_eq_getElem, hval, ← h.1, ← h.2]

/-- A successful run of the loop preserves the length of the density
vector (each step is a `set`). -/
theorem updateLoop_length (sd : SurfaceData) :
    ∀ (ms : List Minimizator) (D out : List ℚ),
      updateLoop ms D sd = Except.ok out → out.length = D.length := by
  intro ms
  induction ms with
  | nil => intro D out h; simp only [updateLoop, Except.ok.injEq] at h; rw [← h]
  | cons m rest ih =>
      intro D out h
      simp only [updateLoop] at h
      cases hu : update_minimizator m D sd with
      | error e => rw [hu] at h; simp at h
      | ok p =>
          rw [hu] at h
          have := ih (D.set (m.segment - 1) p.2) out h
          simpa [List.length_set] using this

/-- Frame property of the loop: an index written by no unit in the list
keeps its input value on a successful run. -/
theorem updateLoop_frame (sd : SurfaceData) (i : Nat) :
    ∀ (ms : List Minimizator), (∀ m ∈ ms, m.segment - 1 ≠ i) →
      ∀ (D out : List ℚ), updateLoop ms D sd = Except.ok out → out[i]? = D[i]? := by
  intro ms
  induction ms with
  | nil =>
      intro _ D out h
      simp only [updateLoop, Except.ok.injEq] at h
      rw [← h]
  | cons m rest ih =>
      intro hni D out h
      simp only [updateLoop] at h
      cases hu : update_minimizator m D sd with
      | error e => rw [hu] at h; simp at h
      | ok p =>
          rw [hu] at h
          have hrest : ∀ m2 ∈ rest, m2.segment - 1 ≠ i := by
            intro m2 hm2; exact hni m2 (List.mem_cons_of_mem m hm2)
          have hm : m.segment - 1 ≠ i := hni m (List.mem_cons_self m rest)
          rw [ih hrest (D.set (m.segment - 1) p.2) out h]
          exact List.getElem?_set_ne hm

/-- The loop over a concatenation runs the first part, then the second on
its result. -/
theorem updateLoop_append (sd : SurfaceData) (a b : List Minimizator) :
    ∀ D : List ℚ, updateLoop (a ++ b) D sd =
      match updateLoop a D sd with
      | .ok D1 => updateLoop b D1 sd
      | .error e => .error e := by
  induction a with
  | nil => intro D; simp [updateLoop]
  | cons m rest ih =>
      intro D
      simp only [List.cons_append, updateLoop]
      cases hu : update_minimizator m D sd with
      | error e => simp
      | ok p => exact ih (D.set (m.segment - 1) p.2)

/-- Writing through one reference leaves every other array unchanged. -/
theorem readArr_writeArr_ne (st : Store) (r r2 : Nat) (a : List ℚ) (h : r ≠ r2) :
    (st.writeArr r a).readArr r2 = st.readArr r2 := by
  simp [Store.writeArr, Store.readArr, List.getD_eq_getElem?_getD, List.getElem?_set_ne h]

/-- Reading back through the written reference yields the written array. -/
theorem readArr_writeArr_self (st : Store) (r : Nat) (a : List ℚ)
    (h : r < st.arrays.length) :
    (st.writeArr r a).readArr r = a := by
  simp [Store.writeArr, Store.readArr, List.getD_eq_getElem?_getD, List.getElem?_set_self h]

/-- The heap-explicit loop writes only through `cref`: every other
reference is untouched, whether the run succeeds or faults. -/
theorem updateLoopS_frame (sd : SurfaceData) (cref r : Nat) (h : r ≠ cref) :
    ∀ (ms : List Minimizator) (st : Store),
      ((updateLoopS ms st cref sd).1).readArr r = st.readArr r := by
  intro ms
  induction ms with
  | nil => intro st; simp [updateLoopS]
  | cons m rest ih =>
      intro st
      simp only [updateLoopS]
      cases hu : update_minimizator m (st.readArr cref) sd with
      | error e => simp
      | ok p =>
          rw [ih (st.writeArr cref ((st.readArr cref).set (m.segment - 1) p.2))]
          exact readArr_writeArr_ne st cref r _ (fun hc => h hc.symm)

/-- The heap-explicit loop simulates the pure loop on the array behind
`cref`: a successful pure run is mirrored exactly, and a faulting pure run
faults with the same error. -/
theorem updateLoopS_sim (sd : SurfaceData) (cref : Nat) :
    ∀ (ms : List Minimizator) (st : Store), cref < st.arrays.length →
      (∀ out, updateLoop ms (st.readArr cref) sd = Except.ok out →
        ((updateLoopS ms st cref sd).1).readArr cref = out ∧
          (updateLoopS ms st cref sd).2 = Except.ok ()) ∧
      (∀ e, updateLoop ms (st.readArr cref) sd = Except.error e →
        (updateLoopS ms st cref sd).2 = Except.error e) := by
  intro ms
  induction ms with
  | nil =>
      intro st hlen
      constructor
      · intro out hout
        simp only [updateLoop, Except.ok.injEq] at hout
        simp [updateLoopS, hout]
      · intro e he
        simp [updateLoop] at he
  | cons m rest ih =>
      intro st hlen
      constructor
      · intro out hout
        simp only [updateLoop] at hout
        cases hu : update_minimizator m (st.readArr cref) sd with
        | error e => rw [hu] at hout; simp at hout
        | ok p =>
            rw [hu] at hout
            simp only [updateLoopS, hu]
            set st2 := st.writeArr cref ((st.readArr cref).set (m.segment - 1) p.2) with hst2
            have hlen2 : cref < st2.arrays.length := by
              simpa [hst2, Store.writeArr, List.length_set] using hlen
            have hread : st2.readArr cref = (st.readArr cref).set (m.segment - 1) p.2 :=
              readArr_writeArr_self st cref _ hlen
            have := (ih st2 hlen2).1 out (by rw [hread]; exact hout)
            exact this
      · intro e he
        simp only [updateLoop] at he
        cases hu : update_minimizator m (st.readArr cref) sd with
        | error e2 =>
            rw [hu] at he
            simp only [Except.error.injEq] at he
            simp [updateLoopS, hu, he]
        | ok p =>
            rw [hu] at he
            simp only [updateLoopS, hu]
            set st2 := st.writeArr cref ((st.readArr cref).set (m.segment - 1) p.2) with hst2
            have hlen2 : cref < st2.arrays.length := by
              simpa [hst2, Store.writeArr, List.length_set] using hlen
            have hread : st2.readArr cref = (st.readArr cref).set (m.segment - 1) p.2 :=
              readArr_writeArr_self st cref _ hlen
            exact (ih st2 hlen2).2 e (by rw [hread]; exact he)

/-- The heap-explicit `update` refines the pure `update`: starting from
any valid reference, the returned reference holds exactly the pure result
on success, and the same fault is raised on failure. -/
theorem updateS_refines_update (c : MinimizatorsCollection) (st : Store) (dref : Nat)
    (sd : SurfaceData) :
    (∀ out, c.update (st.readArr dref) sd = Except.ok out →
      ∃ r, (c.updateS st dref sd).2 = Except.ok r ∧
        ((c.updateS st dref sd).1).readArr r = out) ∧
    (∀ e, c.update (st.readArr dref) sd = Except.error e →
      (c.updateS st dref sd).2 = Except.error e) := by
  have hcref : st.arrays.length < (st.alloc (st.readArr dref)).1.arrays.length := by
    simp [Store.alloc]
  have hread1 : ((st.alloc (st.readArr dref)).1).readArr st.arrays.length
      = st.readArr dref := by
    simp [Store.alloc, Store.readArr, List.getD_eq_getElem?_getD,
      List.getElem?_append_right (Nat.le_refl _)]
  have hkey : c.updateS st dref sd =
      (match updateLoopS c.minimizators (st.alloc (st.readArr dref)).1 st.arrays.length sd with
       | (st2, Except.ok _) => (st2, Except.ok st.arrays.length)
       | (st2, Except.error e) => (st2, Except.error e)) := rfl
  constructor
  · intro out hout
    have hsim := (updateLoopS_sim sd st.arrays.length c.minimizators
      (st.alloc (st.readArr dref)).1 hcref).1 out (by rw [hread1]; exact hout)
    rcases hu : updateLoopS c.minimizators (st.alloc (st.readArr dref)).1 st.arrays.length sd
      with ⟨st2, res⟩
    rw [hu] at hsim
    simp only [] at hsim
    obtain ⟨h1, h2⟩ := hsim
    subst h2
    exact ⟨st.arrays.length, by rw [hkey, hu], by rw [hkey, hu]; exact h1⟩
  · intro e he
    have hsim := (updateLoopS_sim sd st.arrays.length c.minimizators
      (st.alloc (st.readArr dref)).1 hcref).2 e (by rw [hread1]; exact he)
    rcases hu : updateLoopS c.minimizators (st.alloc (st.readArr dref)).1 st.arrays.length sd
      with ⟨st2, res⟩
    rw [hu] at hsim
    simp only [] at hsim
    subst hsim
    rw [hkey, hu]

/-- When every unit has a known channel tag and every referenced index is
within the density vector and both measurement arrays, the loop runs to
completion. -/
theorem updateLoop_ok_of_bounds (sd : SurfaceData) :
    ∀ (ms : List Minimizator) (D : List ℚ),
      (∀ m ∈ ms, (m.value_name = "PtP" ∨ m.value_name = "LAT") ∧
        m.segment - 1 < D.length ∧
        m.segment - 1 < sd.ptp_mean_per_segment.length ∧
        m.segment - 1 < sd.lat_mean_per_segment.length) →
      ∃ out, updateLoop ms D sd = Except.ok out := by
  intro ms
  induction ms with
  | nil => intro D _; exact ⟨D, rfl⟩
  | cons m rest ih =>
      intro D hall
      obtain ⟨hch, hd, hp, hl⟩ := hall m (List.mem_cons_self m rest)
      have hsel : ∃ values, selectValues m sd = some values ∧
          m.segment - 1 < values.length := by
        cases hch with
        | inl hptp => exact ⟨_, selectValues_ptp m sd hptp, hp⟩
        | inr hlat =>
            refine ⟨_, selectValues_lat m sd hlat, ?_⟩
            simpa using hl
      obtain ⟨values, hsv, hlen⟩ := hsel
      have hstep := update_minimizator_eq m D sd values hsv hlen hd
      have hrest : ∀ m2 ∈ rest, (m2.value_name = "PtP" ∨ m2.value_name = "LAT") ∧
          m2.segment - 1 < (D.set (m.segment - 1)
            (m.update (D.get ⟨m.segment - 1, hd⟩)
              (values.get ⟨m.segment - 1, hlen⟩))).length ∧
          m2.segment - 1 < sd.ptp_mean_per_segment.length ∧
          m2.segment - 1 < sd.lat_mean_per_segment.length := by
        intro m2 hm2
        obtain ⟨a, b, cc, dd⟩ := hall m2 (List.mem_cons_of_mem m hm2)
        exact ⟨a, by simpa [List.length_set] using b, cc, dd⟩
      obtain ⟨out, hout⟩ := ih _ hrest
      refine ⟨out, ?_⟩
      simp only [updateLoop, hstep]
      exact hout

/-- Two units agreeing on segment, channel tag, and extensional update
behavior produce the same per-unit update result on any input. -/
theorem update_minimizator_congr (m1 m2 : Minimizator) (D : List ℚ) (sd : SurfaceData)
    (hs : m1.segment = m2.segment) (hn : m1.value_name = m2.value_name)
    (hu : ∀ d v, m1.update d v = m2.update d v) :
    update_minimizator m1 D sd = update_minimizator m2 D sd := by
  have hsel : selectValues m1 sd = selectValues m2 sd := by
    unfold selectValues; rw [hn]
  simp only [update_minimizator, hsel, hs]
  cases selectValues m2 sd with
  | none => rfl
  | some values =>
      cases values[m2.segment - 1]? <;> cases D[m2.segment - 1]? <;> simp [hu]

/-- Pairwise observably equal unit lists drive the loop identically. -/
theorem updateLoop_congr (sd : SurfaceData) (ms1 ms2 : List Minimizator)
    (h : List.Forall₂ (fun m1 m2 => m1.segment = m2.segment ∧
      m1.value_name = m2.value_name ∧ ∀ d v, m1.update d v = m2.update d v) ms1 ms2) :
    ∀ D, updateLoop ms1 D sd = updateLoop ms2 D sd := by
  induction h with
  | nil => intro D; rfl
  | cons hab htail ih =>
      intro D
      obtain ⟨hseg, hname, hupd⟩ := hab
      simp only [updateLoop]
      rw [update_minimizator_congr _ _ D sd hseg hname hupd]
      cases hu : update_minimizator _ D sd with
      | error e => rfl
      | ok p =>
          rw [hseg]
          exact ih _

/-- C1: for every owned unit, the measured value passed to the unit's
update is selected by its channel tag: with `value_name = "LAT"` and
segment `s` it is the negation of `lat_mean_per_segment[s-1]`; with
`value_name = "PtP"` it is `ptp_mean_per_segment[s-1]` unnegated. -/
theorem measured_value_sign_convention (m : Minimizator) (D : List ℚ) (sd : SurfaceData)
    (hd : m.segment - 1 < D.length)
    (hp : m.segment - 1 < sd.ptp_mean_per_segment.length)
    (hl : m.segment - 1 < sd.lat_mean_per_segment.length) :
    (m.value_name = "LAT" →
      update_minimizator m D sd =
        Except.ok (D.get ⟨m.segment - 1, hd⟩,
          m.update (D.get ⟨m.segment - 1, hd⟩)
            (-(sd.lat_mean_per_segment.get ⟨m.segment - 1, hl⟩)))) ∧
    (m.value_name = "PtP" →
      update_minimizator m D sd =
        Except.ok (D.get ⟨m.segment - 1, hd⟩,
          m.update (D.get ⟨m.segment - 1, hd⟩)
            (sd.ptp_mean_per_segment.get ⟨m.segment - 1, hp⟩))) := by
  constructor
  · intro hn
    have hsel := selectValues_lat m sd hn
    have hlen : m.segment - 1 < (sd.lat_mean_per_segment.map (fun x => -x)).length := by
      simpa using hl
    rw [update_minimizator_eq m D sd _ hsel hlen hd]
    congr 2
    simp [List.get_eq_getElem]
  · intro hn
    exact update_minimizator_eq m D sd _ (selectValues_ptp m sd hn) hp hd

/-- Witness for C1: the LAT unit on segment 2 receives `-78` (the negated
snapshot entry), the PtP unit on segment 1 receives `12` unnegated. -/
theorem measured_value_sign_convention_witness :
    update_minimizator uL DW sdW = Except.ok (5, -78) ∧
    update_minimizator uP DW sdW = Except.ok (3, 12) := by
  constructor
  · rw [(measured_value_sign_convention uL DW sdW (by decide) (by decide) (by decide)).1 rfl]
    decide
  · rw [(measured_value_sign_convention uP DW sdW (by decide) (by decide) (by decide)).2 rfl]
    decide

/-- C2: the whole-collection update never writes the caller's array: the
loop works on a freshly allocated copy and the reference it returns is a
different one from the caller's. -/
theorem update_does_not_mutate_caller (c : MinimizatorsCollection) (st : Store)
    (dref : Nat) (sd : SurfaceData) (h : dref < st.arrays.length) :
    ((c.updateS st dref sd).1).readArr dref = st.readArr dref ∧
    ∀ r, (c.updateS st dref sd).2 = Except.ok r → r ≠ dref := by
  have hne : dref ≠ st.arrays.length := Nat.ne_of_lt h
  have hkey : c.updateS st dref sd =
      (match updateLoopS c.minimizators (st.alloc (st.readArr dref)).1 st.arrays.length sd with
       | (st2, Except.ok _) => (st2, Except.ok st.arrays.length)
       | (st2, Except.error e) => (st2, Except.error e)) := rfl
  have hframe := updateLoopS_frame sd st.arrays.length dref hne c.minimizators
    (st.alloc (st.readArr dref)).1
  have halloc : ((st.alloc (st.readArr dref)).1).readArr dref = st.readArr dref := by
    simp [Store.alloc, Store.readArr, List.getD_eq_getElem?_getD, List.getElem?_append_left h]
  rcases hu : updateLoopS c.minimizators (st.alloc (st.readArr dref)).1 st.arrays.length sd
    with ⟨st2, res⟩
  rw [hu] at hframe
  constructor
  · rw [hkey, hu]
    cases res with
    | ok u => rw [← halloc]; exact hframe
    | error e => rw [← halloc]; exact hframe
  · intro r hr
    rw [hkey, hu] at hr
    cases res with
    | ok u =>
        simp only [Except.ok.injEq] at hr
        rw [← hr]
        exact fun hc => hne hc.symm
    | error e => simp at hr

/-- Witness for C2: on the concrete store, reference 0 (the caller's
vector) is unchanged and the returned reference is the fresh slot 2. -/
theorem update_does_not_mutate_caller_witness :
    ((cW.updateS stW 0 sdW).1).readArr 0 = stW.readArr 0 ∧
    (cW.updateS stW 0 sdW).2 = Except.ok 2 ∧ (2 : Nat) ≠ 0 := by
  have h := update_does_not_mutate_caller cW stW 0 sdW (by decide)
  exact ⟨h.1, by decide, h.2 2 (by decide)⟩

/-- C3: a segment index owned by no unit passes through the
whole-collection update unchanged, and the output vector keeps the input
vector's length. -/
theorem unmanaged_segment_pass_through (c : MinimizatorsCollection) (D out : List ℚ)
    (sd : SurfaceData) (hok : c.update D sd = Except.ok out) (i : Nat)
    (hi : ∀ m ∈ c.minimizators, m.segment - 1 ≠ i) :
    out[i]? = D[i]? ∧ out.length = D.length :=
  ⟨updateLoop_frame sd i c.minimizators hi D out hok,
   updateLoop_length sd c.minimizators D out hok⟩

/-- Witness for C3: segment 3 (index 2) is owned by no unit of `cW` and
keeps its input density 9; the output length stays 3. -/
theorem unmanaged_segment_pass_through_witness :
    (([12, -78, 9] : List ℚ)[2]? = DW[2]? ∧ ([12, -78, 9] : List ℚ).length = DW.length) :=
  unmanaged_segment_pass_through cW DW [12, -78, 9] sdW (by decide) 2 (by decide)

/-- C4: when units share a segment index, the output density at that index
is the new density produced by the unit processed last for that index in
construction order (every later unit writes elsewhere). -/
theorem last_unit_wins (c : MinimizatorsCollection) (l1 l2 : List Minimizator)
    (m : Minimizator) (hsplit : c.minimizators = l1 ++ m :: l2)
    (D D1 out : List ℚ) (sd : SurfaceData) (d dn : ℚ)
    (h1 : updateLoop l1 D sd = Except.ok D1)
    (hm : update_minimizator m D1 sd = Except.ok (d, dn))
    (hl2 : ∀ m2 ∈ l2, m2.segment - 1 ≠ m.segment - 1)
    (hout : c.update D sd = Except.ok out) :
    out[m.segment - 1]? = some dn := by
  rw [MinimizatorsCollection.update, hsplit, updateLoop_append, h1] at hout
  simp only [updateLoop, hm] at hout
  obtain ⟨values, hsel, hv, hd, hdd, hdn⟩ := update_minimizator_ok m D1 sd d dn hm
  rw [updateLoop_frame sd (m.segment - 1) l2 hl2 _ out hout]
  exact List.getElem?_set_self hd

/-- Witness for C4: in `cW3` the units `uP` and `uP2` share segment 1 and
`uL` follows on segment 2; the output at index 0 is `uP2`'s new density. -/
theorem last_unit_wins_witness : (([12, -78, 9] : List ℚ))[0]? = some 12 :=
  last_unit_wins cW3 [uP] [uL] uP2 (by rfl) DW [12, 5, 9] [12, -78, 9] sdW 12 12
    (by decide) (by decide) (by decide) (by decide)

/-- C5: a segment identifier `s` is 1-indexed against 0-indexed arrays:
the unit's step reads the selected measurement array at `s - 1`, reads the
density vector at `s - 1`, and writes the new density into the copy at
`s - 1`, for either channel tag. -/
theorem one_indexed_segment_zero_indexed_arrays (m : Minimizator)
    (rest : List Minimizator) (D : List ℚ) (sd : SurfaceData)
    (hd : m.segment - 1 < D.length)
    (hp : m.segment - 1 < sd.ptp_mean_per_segment.length)
    (hl : m.segment - 1 < sd.lat_mean_per_segment.length) :
    (m.value_name = "PtP" →
      updateLoop (m :: rest) D sd =
        updateLoop rest
          (D.set (m.segment - 1)
            (m.update (D.get ⟨m.segment - 1, hd⟩)
              (sd.ptp_mean_per_segment.get ⟨m.segment - 1, hp⟩))) sd) ∧
    (m.value_name = "LAT" →
      updateLoop (m :: rest) D sd =
        updateLoop rest
          (D.set (m.segment - 1)
            (m.update (D.get ⟨m.segment - 1, hd⟩)
              (-(sd.lat_mean_per_segment.get ⟨m.segment - 1, hl⟩)))) sd) := by
  constructor
  · intro hn
    have hstep := update_minimizator_eq m D sd _ (selectValues_ptp m sd hn) hp hd
    simp only [updateLoop, hstep]
  · intro hn
    have hlen : m.segment - 1 < (sd.lat_mean_per_segment.map (fun x => -x)).length := by
      simpa using hl
    have hstep := update_minimizator_eq m D sd _ (selectValues_lat m sd hn) hlen hd
    have hval : (sd.lat_mean_per_segment.map (fun x => -x)).get ⟨m.segment - 1, hlen⟩
        = -(sd.lat_mean_per_segment.get ⟨m.segment - 1, hl⟩) := by
      simp [List.get_eq_getElem]
    rw [hval] at hstep
    simp only [updateLoop, hstep]

/-- Witness for C5: both concrete units read and write index
`segment - 1` of the three arrays. -/
theorem one_indexed_segment_zero_indexed_arrays_witness :
    updateLoop [uP] DW sdW = Except.ok [12, 5, 9] ∧
    updateLoop [uL] DW sdW = Except.ok [3, -78, 9] := by
  constructor
  · rw [(one_indexed_segment_zero_indexed_arrays uP [] DW sdW
      (by decide) (by decide) (by decide)).1 rfl]
    decide
  · rw [(one_indexed_segment_zero_indexed_arrays uL [] DW sdW
      (by decide) (by decide) (by decide)).2 rfl]
    decide

/-- C10: each per-unit update reads its current density from the evolving
copy: when two units share a segment, the later one's update is applied to
the earlier one's freshly produced density, not the caller's original
value at that index. -/
theorem later_unit_reads_evolving_copy (m1 m2 : Minimizator) (D : List ℚ)
    (sd : SurfaceData) (d1 dn1 : ℚ) (vs2 : List ℚ)
    (hseg : m2.segment = m1.segment)
    (h1 : update_minimizator m1 D sd = Except.ok (d1, dn1))
    (hsel : selectValues m2 sd = some vs2)
    (hv2 : m2.segment - 1 < vs2.length) :
    updateLoop [m1, m2] D sd =
      Except.ok ((D.set (m1.segment - 1) dn1).set (m2.segment - 1)
        (m2.update dn1 (vs2.get ⟨m2.segment - 1, hv2⟩))) := by
  obtain ⟨values1, hsel1, hv1, hd1, hdd1, hdn1⟩ := update_minimizator_ok m1 D sd d1 dn1 h1
  have hd2 : m2.segment - 1 < (D.set (m1.segment - 1) dn1).length := by
    rw [List.length_set, hseg]
    exact hd1
  have h2 := update_minimizator_eq m2 (D.set (m1.segment - 1) dn1) sd vs2 hsel hv2 hd2
  have hget : (D.set (m1.segment - 1) dn1).get ⟨m2.segment - 1, hd2⟩ = dn1 := by
    simp [List.get_eq_getElem, hseg]
  rw [hget] at h2
  simp only [updateLoop, h1, h2]

/-- Witness for C10: `uP2` shares segment 1 with `uP`; its update receives
`uP`'s new density 12, not the caller's 3, giving output 12 at index 0. -/
theorem later_unit_reads_evolving_copy_witness :
    updateLoop [uP, uP2] DW sdW = Except.ok [12, 5, 9] := by
  rw [later_unit_reads_evolving_copy uP uP2 DW sdW 3 12 [12, 34]
    (by decide) (by decide) (by decide) (by decide)]
  decide

/-- C6 counterexample: in `cBad` every unit's channel is PtP or LAT, yet
the whole-collection update still raises (an index fault): the
channel-only precondition does not make the operation exception-free. -/
theorem known_channels_can_still_raise :
    (∀ m ∈ cBad.minimizators, m.value_name = "PtP" ∨ m.value_name = "LAT") ∧
    cBad.update DW sdBad = Except.error Err.indexOutOfRange := by
  constructor
  · decide
  · decide

/-- C6 (amended): a unit whose channel is neither PtP nor LAT binds no
measurement array, the subsequent indexing fails with the unbound-value
error, and that error propagates out of the loop; when every unit's
channel is PtP or LAT, the unbound-value branch is unreachable, and if in
addition every referenced index is within the density vector and both
measurement arrays, the whole-collection update raises no exception. -/
theorem unknown_channel_faults_known_channels_ok (c : MinimizatorsCollection)
    (D : List ℚ) (sd : SurfaceData)
    (hch : ∀ m ∈ c.minimizators, m.value_name = "PtP" ∨ m.value_name = "LAT")
    (hd : ∀ m ∈ c.minimizators, m.segment - 1 < D.length)
    (hp : ∀ m ∈ c.minimizators, m.segment - 1 < sd.ptp_mean_per_segment.length)
    (hl : ∀ m ∈ c.minimizators, m.segment - 1 < sd.lat_mean_per_segment.length) :
    (∀ (m2 : Minimizator) (D2 : List ℚ) (rest : List Minimizator),
      m2.value_name ≠ "PtP" → m2.value_name ≠ "LAT" →
        update_minimizator m2 D2 sd = Except.error Err.unboundValue ∧
        updateLoop (m2 :: rest) D2 sd = Except.error Err.unboundValue) ∧
    ∃ out, c.update D sd = Except.ok out := by
  constructor
  · intro m2 D2 rest hn1 hn2
    have hstep : update_minimizator m2 D2 sd = Except.error Err.unboundValue := by
      simp only [update_minimizator, selectValues_none m2 sd hn1 hn2]
    exact ⟨hstep, by simp only [updateLoop, hstep]⟩
  · exact updateLoop_ok_of_bounds sd c.minimizators D
      (fun m hm => ⟨hch m hm, hd m hm, hp m hm, hl m hm⟩)

/-- Witness for C6 (amended): the unit `uX` with tag neither PtP nor LAT
faults with the unbound-value error, while the all-known-channel,
in-bounds collection `cW` returns normally. -/
theorem unknown_channel_faults_known_channels_ok_witness :
    (update_minimizator uX DW sdW = Except.error Err.unboundValue ∧
      updateLoop [uX] DW sdW = Except.error Err.unboundValue) ∧
    ∃ out, cW.update DW sdW = Except.ok out := by
  have h := unknown_channel_faults_known_channels_ok cW DW sdW
    (by decide) (by decide) (by decide) (by decide)
  exact ⟨h.1 uX DW [] (by decide) (by decide), h.2⟩

/-- C7: construction builds exactly one unit per zipped (segment, tag)
pair, preserving input order, truncating silently to the shorter input
(no error is possible: the builder is a total function). -/
theorem construction_order_and_truncation (law : Nat → String → ℚ → ℚ → ℚ)
    (segs : List Nat) (names : List String) :
    (make_minimizators law segs names).length = min segs.length names.length ∧
    ∀ i (h1 : i < segs.length) (h2 : i < names.length),
      (make_minimizators law segs names)[i]? =
        some (mkMinimizator law (segs.get ⟨i, h1⟩) (names.get ⟨i, h2⟩)) := by
  constructor
  · simp [make_minimizators, List.length_zip]
  · intro i h1 h2
    have hm : i < (make_minimizators law segs names).length := by
      simp only [make_minimizators, List.length_map, List.length_zip]
      omega
    rw [List.getElem?_eq_getElem hm]
    simp [make_minimizators, List.getElem_map, List.getElem_zip, List.get_eq_getElem]

/-- Witness for C7: three segments with two tags build exactly two units,
and the second unit pairs segment 2 with tag LAT. -/
theorem construction_order_and_truncation_witness :
    (make_minimizators lawW [1, 2, 3] ["PtP", "LAT"]).length = min 3 2 ∧
    (make_minimizators lawW [1, 2, 3] ["PtP", "LAT"])[1]? =
      some (mkMinimizator lawW 2 "LAT") := by
  have h := construction_order_and_truncation lawW [1, 2, 3] ["PtP", "LAT"]
  exact ⟨h.1, h.2 1 (by decide) (by decide)⟩

/-- C8: the whole-collection update is determined by the inputs and the
units' observable behavior: collections whose units pairwise agree on
segment, channel tag, and update function (extensionally) give identical
output vectors on identical `(D, S)`. -/
theorem deterministic_units_deterministic_update (c1 c2 : MinimizatorsCollection)
    (D : List ℚ) (sd : SurfaceData)
    (h : List.Forall₂ (fun m1 m2 => m1.segment = m2.segment ∧
      m1.value_name = m2.value_name ∧ ∀ d v, m1.update d v = m2.update d v)
      c1.minimizators c2.minimizators) :
    c1.update D sd = c2.update D sd :=
  updateLoop_congr sd c1.minimizators c2.minimizators h D

/-- Witness for C8: `cW` and `cWalt` hold observably equal units through
different closures and different stored tolerances, and produce the same
output. -/
theorem deterministic_units_deterministic_update_witness :
    cW.update DW sdW = cWalt.update DW sdW :=
  deterministic_units_deterministic_update cW cWalt DW sdW
    (List.Forall₂.cons ⟨rfl, rfl, fun _ _ => rfl⟩
      (List.Forall₂.cons ⟨rfl, rfl, fun _ _ => rfl⟩ List.Forall₂.nil))

/-- C9: both accessors are recomputed from the current unit list at every
access: on any collection they are exactly the ordered per-unit `segment`
and `value_name` fields, and replacing the unit list is reflected at once. -/
theorem accessors_recomputed_per_access (c : MinimizatorsCollection)
    (ms : List Minimizator) :
    (MinimizatorsCollection.mk c.density_step_tol ms).segments =
      ms.map Minimizator.segment ∧
    (MinimizatorsCollection.mk c.density_step_tol ms).value_names =
      ms.map Minimizator.value_name ∧
    c.segments.length = c.minimizators.length ∧
    c.value_names.length = c.minimizators.length ∧
    ∀ i (h : i < c.minimizators.length),
      c.segments[i]? = some (c.minimizators.get ⟨i, h⟩).segment ∧
      c.value_names[i]? = some (c.minimizators.get ⟨i, h⟩).value_name := by
  refine ⟨rfl, rfl, by simp [MinimizatorsCollection.segments],
    by simp [MinimizatorsCollection.value_names], ?_⟩
  intro i h
  constructor
  · rw [MinimizatorsCollection.segments, List.getElem?_map,
      List.getElem?_eq_getElem h]
    simp [List.get_eq_getElem]
  · rw [MinimizatorsCollection.value_names, List.getElem?_map,
      List.getElem?_eq_getElem h]
    simp [List.get_eq_getElem]

/-- Witness for C9: on `cW` with the unit list replaced by `[uL]`, the
accessors report the new membership, and on `cW` itself they report the
per-unit fields at index 0. -/
theorem accessors_recomputed_per_access_witness :
    (MinimizatorsCollection.mk cW.density_step_tol [uL]).segments =
      [uL].map Minimizator.segment ∧
    cW.segments[0]? = some (cW.minimizators.get ⟨0, by decide⟩).segment := by
  have h := accessors_recomputed_per_access cW [uL]
  exact ⟨h.1, (h.2.2.2.2 0 (by decide)).1⟩
